import Mathlib

/-!
Formal model of the turn-based military simulation engine found in
`run_military_simulation.py` and of the LLM agent response path found in
`agents.py`.

The main loop of `run_military_simulation.py` (agent querying with bounded
retries, the total-blackout abort, per-turn action/metric logging, and the
day-indexed consequence history) is embedded directly from the source.
The `World` state update (action resolution with optional clamping and the
day increment), which lives in `world.py` (not part of the provided
sources), is modelled from the specification; those definitions carry a
`Modelled from the spec` note in their doc comments.
-/

namespace MilSim

/-- An action proposed by a nation: actor, target, action kind and free
text content (mirrors `data_types.Action` as used by the main loop). -/
structure Action where
  self : String
  other : String
  name : String
  content : String
deriving DecidableEq, Repr

/-- Per-nation state: immutable identity plus the mutable dynamic
variables (numeric fields). -/
structure NationState where
  name : String
  dynamicVars : List (String × Int)
deriving DecidableEq, Repr

/-- Modelled from the spec: per action kind, the signed deltas applied to
the actor and to the target, plus the classification tags used for
metrics (the action catalog rows; `world.py` and the CSV loader are not
part of the provided sources). -/
structure ActionEffectSpec where
  actorDeltas : List (String × Int)
  targetDeltas : List (String × Int)
  tags : List String
deriving DecidableEq, Repr

/-- Modelled from the spec: configured `[min, max]` bound for one dynamic
field, used only when clamping is enabled. -/
structure FieldBounds where
  field : String
  lo : Int
  hi : Int
deriving DecidableEq, Repr

/-- The response produced by the consequence summarizer
(`data_types.WorldModelResponse` as used by the main loop). -/
structure WorldModelResponse where
  consequences : String
  systemPrompt : String
  userPrompt : String
  promptTokens : Nat
  completionTokens : Nat
  totalTokens : Nat
  completionTimeSec : Nat
deriving DecidableEq, Repr

/-- A successful nation response (`data_types.NationResponse` as used by
the main loop): reasoning text, proposed actions, prompts and cost
figures. -/
structure NationResponse where
  reasoning : String
  actions : List Action
  systemPrompt : String
  userPrompt : String
  promptTokens : Nat
  completionTokens : Nat
  totalTokens : Nat
  completionTimeSec : Nat
deriving DecidableEq, Repr

/-- The world state owned by the scheduler: the nations, the day counter,
the configured maximum day and the day-indexed consequence history.
The day counter and history writes are visible in the main loop; the
state container itself is modelled from the spec (`world.py` is not part
of the provided sources). -/
structure World where
  nations : List NationState
  currentDay : Nat
  maxDays : Nat
  consequenceHistory : List (Nat × WorldModelResponse)
deriving DecidableEq, Repr

/-- Run-level configuration passed into the engine: the action catalog,
the clamping bounds, the clamp flag, the retry budget and the tags
tracked by the metrics aggregator. -/
structure SimConfig where
  table : List (String × ActionEffectSpec)
  bounds : List FieldBounds
  clamp : Bool
  maxRetries : Nat
  trackedTags : List String

/-- The day whose actions were just resolved (`world.previous_day`). -/
def World.previousDay (w : World) : Nat := w.currentDay - 1

/-- Modelled from the spec: add a signed delta to one named dynamic
field, leaving all other fields unchanged (the schema is fixed, so a
delta to a field an agent does not have is a no-op). -/
def applyDelta (vars : List (String × Int)) (field : String) (d : Int) :
    List (String × Int) :=
  vars.map (fun p => if p.1 = field then (p.1, p.2 + d) else p)

/-- Modelled from the spec: apply a whole delta mapping in order. -/
def applyDeltas (vars : List (String × Int)) (deltas : List (String × Int)) :
    List (String × Int) :=
  deltas.foldl (fun acc fd => applyDelta acc fd.1 fd.2) vars

/-- Modelled from the spec: apply one action to the nation collection.
The action kind is looked up in the catalog; an unknown kind leaves every
nation unchanged (the action is dropped).  Otherwise the actor delta is
applied to the actor and the target delta to the target. -/
def applyActionToNations (table : List (String × ActionEffectSpec))
    (nations : List NationState) (a : Action) : List NationState :=
  match table.lookup a.name with
  | none => nations
  | some spec =>
    nations.map (fun n =>
      let n1 := if n.name = a.self then
        { n with dynamicVars := applyDeltas n.dynamicVars spec.actorDeltas } else n
      if n1.name = a.other then
        { n1 with dynamicVars := applyDeltas n1.dynamicVars spec.targetDeltas } else n1)

/-- Modelled from the spec: truncate a value to its configured bound. -/
def clampValue (b : FieldBounds) (v : Int) : Int := max b.lo (min b.hi v)

/-- Modelled from the spec: clamp every dynamic value that has a
configured bound; fields without a bound are left untouched. -/
def clampVars (bounds : List FieldBounds) (vars : List (String × Int)) :
    List (String × Int) :=
  vars.map (fun p =>
    match bounds.find? (fun b => b.field == p.1) with
    | some b => (p.1, clampValue b p.2)
    | none => p)

/-- Modelled from the spec (section 4.1): resolve a batch of actions
against the nation snapshot — accumulate all deltas in action order, then
clamp once per field at the end of the turn when clamping is enabled. -/
def resolve (table : List (String × ActionEffectSpec)) (bounds : List FieldBounds)
    (clamp : Bool) (nations : List NationState) (actions : List Action) :
    List NationState :=
  let ns := actions.foldl (applyActionToNations table) nations
  if clamp then
    ns.map (fun n => { n with dynamicVars := clampVars bounds n.dynamicVars })
  else ns

/-- Modelled from the spec: the action kinds of a batch that are absent
from the catalog, in order — each one is surfaced as a warning by the
resolution step. -/
def resolveWarnings (table : List (String × ActionEffectSpec))
    (actions : List Action) : List String :=
  actions.filterMap (fun a =>
    if (table.lookup a.name).isSome then none else some a.name)

/-- Day-keyed store into the consequence history, with Python dict
assignment semantics (`world.consequence_history[day] = response`): an
existing entry for the day is overwritten, otherwise the entry is
appended. -/
def setHistory (h : List (Nat × WorldModelResponse)) (d : Nat)
    (r : WorldModelResponse) : List (Nat × WorldModelResponse) :=
  if h.any (fun p => p.1 = d) then
    h.map (fun p => if p.1 = d then (d, r) else p)
  else h ++ [(d, r)]

/-- Modelled from the spec: `world.update_state(queued_actions)` resolves
the queued actions into the nation states and advances the day counter by
one. -/
def World.updateState (cfg : SimConfig) (w : World) (actions : List Action) :
    World :=
  { w with nations := resolve cfg.table cfg.bounds cfg.clamp w.nations actions,
           currentDay := w.currentDay + 1 }

/-- Per-turn behaviour of one external agent: the outcome of each query
attempt (an exception message or a response). -/
abbrev AgentBehavior := Nat → Except String NationResponse

/-- Per-day assignment of behaviours to the nation roster. -/
abbrev Behaviors := Nat → List AgentBehavior

/-- Trace of one retry loop around a single agent query (main loop lines
228-243): the final response if any, the number of times the agent was
invoked, the number of warnings logged and the number of backoff sleeps
taken. -/
structure RetryResult where
  response : Option NationResponse
  numCalls : Nat
  numWarnings : Nat
  numSleeps : Nat
deriving DecidableEq, Repr

/-- The retry loop body: try up to `fuel` more attempts starting at
attempt index `start`; a successful attempt breaks out of the loop, an
exception is logged as a warning and followed by a backoff sleep. -/
def retryQueryAux (respond : Nat → Except String NationResponse) (start : Nat) :
    Nat → RetryResult
  | 0 => { response := none, numCalls := 0, numWarnings := 0, numSleeps := 0 }
  | fuel + 1 =>
    match respond start with
    | Except.ok r => { response := some r, numCalls := 1, numWarnings := 0, numSleeps := 0 }
    | Except.error _ =>
      let rest := retryQueryAux respond (start + 1) fuel
      { response := rest.response, numCalls := rest.numCalls + 1,
        numWarnings := rest.numWarnings + 1, numSleeps := rest.numSleeps + 1 }

/-- The bounded retry wrapper around one agent query
(`for _ in range(max_model_retries): try ... except ...`). -/
def retryQuery (respond : Nat → Except String NationResponse) (maxRetries : Nat) :
    RetryResult :=
  retryQueryAux respond 0 maxRetries

/-- The response obtained from one agent this turn after retries, if any. -/
def respOf (maxRetries : Nat) (b : AgentBehavior) : Option NationResponse :=
  (retryQuery b maxRetries).response

/-- Accumulated result of querying every nation once this turn (main loop
lines 225-250): the queued actions in collection order, the successful
responses in collection order, and the number of nations that exceeded
the retry budget. -/
structure CollectResult where
  queuedActions : List Action
  modelResponses : List NationResponse
  numFailed : Nat
deriving DecidableEq, Repr

/-- Query each nation in roster order with the bounded retry wrapper;
failed nations are skipped (they contribute no actions and no logged
response) and counted. -/
def collectResponses : List AgentBehavior → Nat → CollectResult
  | [], _ => { queuedActions := [], modelResponses := [], numFailed := 0 }
  | b :: bs, maxRetries =>
    let rest := collectResponses bs maxRetries
    match respOf maxRetries b with
    | none => { rest with numFailed := rest.numFailed + 1 }
    | some r =>
      { rest with queuedActions := r.actions ++ rest.queuedActions,
                  modelResponses := r :: rest.modelResponses }

/-- The per-turn response log tables (`model_response_text_today`,
`model_response_costs_today`): row `i` pairs the `i`-th nation of the
roster with the `i`-th collected response (`zip(nations, model_responses)`). -/
def responseLogRows (nationNames : List String)
    (modelResponses : List NationResponse) : List (String × NationResponse) :=
  nationNames.zip modelResponses

/-- The roster indices of the agents that produced a response this turn,
in collection order: positions of `true` in the success bit list,
starting at index `start`. -/
def succIndicesAux : List Bool → Nat → List Nat
  | [], _ => []
  | b :: bs, start =>
    if b then start :: succIndicesAux bs (start + 1)
    else succIndicesAux bs (start + 1)

/-- Number of queued actions this turn that carry a given classification
tag, where the tags of an action are the tags its kind has in the action
catalog (an unknown kind has no tags). -/
def countTag (table : List (String × ActionEffectSpec)) (tag : String)
    (actions : List Action) : Nat :=
  actions.countP (fun a =>
    match table.lookup a.name with
    | some spec => spec.tags.contains tag
    | none => false)

/-- Observable events of a run, in order: agent queries, unknown-action
warnings, action resolution, the day increment, the consequence summary
request, the history write, and the fatal abort. -/
inductive Event where
  | queried (day idx : Nat) (success : Bool)
  | unknownActionWarning (day : Nat) (kind : String)
  | resolved (day : Nat)
  | dayAdvanced (newDay : Nat)
  | summarized (day : Nat)
  | recorded (day : Nat)
  | aborted (day : Nat)
deriving DecidableEq, Repr

/-- Query events of one turn: one per nation in roster order, marked with
whether the agent produced a response within the retry budget. -/
def queryEvents (day : Nat) (behaviors : List AgentBehavior) (maxRetries : Nat) :
    List Event :=
  behaviors.enum.map (fun p => Event.queried day p.1 (respOf maxRetries p.2).isSome)

/-- Per-turn metric log (`log_object` entries `daily/..._action_counts`,
`whole_run/sum_..._action_counts` and `whole_run/max_..._action_counts`):
for each tracked tag, the count this turn, the cumulative sum so far and
the maximum per-turn count so far. -/
structure TurnLog where
  day : Nat
  dailyCounts : List Nat
  sumCounts : List Nat
  maxCounts : List Nat
deriving DecidableEq, Repr

/-- Append each tag's daily count to its whole-run count list
(`..._action_counts_whole_run.append(...)`). -/
def appendCounts (m : List (List Nat)) (daily : List Nat) : List (List Nat) :=
  List.zipWith (fun l c => l ++ [c]) m daily

/-- Outcome of one turn: the events it emitted and either the fatal abort
error or the new world, the updated metric lists and the turn's metric
log. -/
structure TurnOutcome where
  events : List Event
  result : Except String (World × List (List Nat) × TurnLog)

/-- One turn of the main loop (lines 214-419): query every nation with
retries; if every nation exceeded the retry budget raise the fatal
error; otherwise count the tracked tags over the queued actions, update
the world state (resolution plus day increment), request the consequence
summary and store it keyed by the pre-increment day. -/
def runTurn (cfg : SimConfig) (su : World → WorldModelResponse)
    (behaviors : List AgentBehavior) (w : World) (metrics : List (List Nat)) :
    TurnOutcome :=
  let col := collectResponses behaviors cfg.maxRetries
  let qEvents := queryEvents w.currentDay behaviors cfg.maxRetries
  if col.numFailed = behaviors.length then
    { events := qEvents ++ [Event.aborted w.currentDay],
      result := Except.error "All nations exceeded max retries, ending simulation" }
  else
    let daily := cfg.trackedTags.map (fun tg => countTag cfg.table tg col.queuedActions)
    let metricsNew := appendCounts metrics daily
    let lg : TurnLog :=
      { day := w.currentDay, dailyCounts := daily,
        sumCounts := metricsNew.map (fun l => l.sum),
        maxCounts := metricsNew.map (fun l => l.foldl max 0) }
    let warnEvents := (resolveWarnings cfg.table col.queuedActions).map
      (Event.unknownActionWarning w.currentDay)
    let w1 := World.updateState cfg w col.queuedActions
    let rsp := su w1
    let w2 := { w1 with
      consequenceHistory := setHistory w1.consequenceHistory w1.previousDay rsp }
    { events := qEvents ++ warnEvents ++
        [Event.resolved w.currentDay, Event.dayAdvanced w1.currentDay,
         Event.summarized w1.previousDay, Event.recorded w1.previousDay],
      result := Except.ok (w2, metricsNew, lg) }

instance {ε α : Type} [DecidableEq ε] [DecidableEq α] : DecidableEq (Except ε α) :=
  fun x y =>
    match x, y with
    | Except.ok a, Except.ok b =>
      if h : a = b then isTrue (by rw [h]) else isFalse (by simp [h])
    | Except.error a, Except.error b =>
      if h : a = b then isTrue (by rw [h]) else isFalse (by simp [h])
    | Except.ok _, Except.error _ => isFalse (by simp)
    | Except.error _, Except.ok _ => isFalse (by simp)

/-- Result of a whole run: the event trace, the final world or the fatal
abort, the whole-run metric lists and the per-turn metric logs. -/
structure SimResult where
  events : List Event
  final : Except String World
  metrics : List (List Nat)
  logs : List TurnLog
deriving DecidableEq, Repr

/-- The main simulation loop, driven by fuel: while the current day has
not exceeded the maximum, run one turn; a fatal abort stops the run
immediately with no further turns. -/
def runSimAux (cfg : SimConfig) (su : World → WorldModelResponse)
    (bs : Behaviors) : Nat → World → List (List Nat) → SimResult
  | 0, w, m => { events := [], final := Except.ok w, metrics := m, logs := [] }
  | fuel + 1, w, m =>
    if w.currentDay ≤ w.maxDays then
      let t := runTurn cfg su (bs w.currentDay) w m
      match t.result with
      | Except.error e =>
        { events := t.events, final := Except.error e, metrics := m, logs := [] }
      | Except.ok (w2, m2, lg) =>
        let r := runSimAux cfg su bs fuel w2 m2
        { events := t.events ++ r.events, final := r.final,
          metrics := r.metrics, logs := lg :: r.logs }
    else { events := [], final := Except.ok w, metrics := m, logs := [] }

/-- Run the simulation from a starting world with empty metric lists.
The fuel `maxDays + 1 - currentDay` is exactly the number of remaining
turns, since every completed turn advances the day by one. -/
def runSim (cfg : SimConfig) (su : World → WorldModelResponse) (bs : Behaviors)
    (w : World) : SimResult :=
  runSimAux cfg su bs (w.maxDays + 1 - w.currentDay) w
    (cfg.trackedTags.map (fun _ => []))

/-- The collection result of the turn played on day `d`. -/
def dayCollect (cfg : SimConfig) (bs : Behaviors) (d : Nat) : CollectResult :=
  collectResponses (bs d) cfg.maxRetries

/-- The actions queued on day `d` (only responding agents contribute). -/
def dayActions (cfg : SimConfig) (bs : Behaviors) (d : Nat) : List Action :=
  (dayCollect cfg bs d).queuedActions

/-- The per-tag counts of the actions queued on day `d`. -/
def turnDaily (cfg : SimConfig) (bs : Behaviors) (d : Nat) : List Nat :=
  cfg.trackedTags.map (fun tg => countTag cfg.table tg (dayActions cfg bs d))

/-- The unknown-action warnings emitted on day `d`. -/
def turnWarns (cfg : SimConfig) (bs : Behaviors) (d : Nat) : List Event :=
  (resolveWarnings cfg.table (dayActions cfg bs d)).map (Event.unknownActionWarning d)

/-- The events emitted by the (non-aborting) turn played on day `d`:
queries, then unknown-action warnings, then resolution, the day
increment, the summary request and the history write. -/
def turnEventsAt (cfg : SimConfig) (bs : Behaviors) (d : Nat) : List Event :=
  queryEvents d (bs d) cfg.maxRetries ++ turnWarns cfg bs d ++
    [Event.resolved d, Event.dayAdvanced (d + 1), Event.summarized d,
     Event.recorded d]

/-- The world produced by one non-aborting turn: state update (resolution
plus day increment) followed by the consequence-history write. -/
def stepWorld (cfg : SimConfig) (su : World → WorldModelResponse)
    (bs : Behaviors) (w : World) : World :=
  let w1 := World.updateState cfg w (dayActions cfg bs w.currentDay)
  { w1 with consequenceHistory := setHistory w1.consequenceHistory w1.previousDay (su w1) }

/-- `k` successive non-aborting turns. -/
def iterWorld (cfg : SimConfig) (su : World → WorldModelResponse)
    (bs : Behaviors) : Nat → World → World
  | 0, w => w
  | k + 1, w => iterWorld cfg su bs k (stepWorld cfg su bs w)

/-- The whole-run metric lists after the turns of days
`d, d+1, ..., d+k-1`, starting from the lists `m`. -/
def metricsClosed (cfg : SimConfig) (bs : Behaviors) :
    Nat → Nat → List (List Nat) → List (List Nat)
  | _, 0, m => m
  | d, k + 1, m =>
    metricsClosed cfg bs (d + 1) k (appendCounts m (turnDaily cfg bs d))

/-- The metric log of the turn played on day `d`, given the incoming
whole-run metric lists `m`. -/
def logAt (cfg : SimConfig) (bs : Behaviors) (d : Nat) (m : List (List Nat)) :
    TurnLog :=
  let mNew := appendCounts m (turnDaily cfg bs d)
  { day := d, dailyCounts := turnDaily cfg bs d,
    sumCounts := mNew.map (fun l => l.sum),
    maxCounts := mNew.map (fun l => l.foldl max 0) }

/-- The per-turn metric logs of the turns of days `d, ..., d+k-1`,
starting from the whole-run metric lists `m`. -/
def logsClosed (cfg : SimConfig) (bs : Behaviors) :
    Nat → Nat → List (List Nat) → List TurnLog
  | _, 0, _ => []
  | d, k + 1, m =>
    logAt cfg bs d m ::
      logsClosed cfg bs (d + 1) k (appendCounts m (turnDaily cfg bs d))

/-- Whether an event is a day increment. -/
def isDayAdv : Event → Bool
  | Event.dayAdvanced _ => true
  | _ => false

/-! ### Model of `agents.py` (`LLMAgent.respond`) -/

/-- The Python exception kinds that can arise inside the response path. -/
inductive PyExc where
  | backendError (msg : String)
  | valueError (msg : String)
  | keyError (msg : String)
  | typeError (msg : String)
  | attributeError (msg : String)
  | jsonDecodeError (msg : String)
  | agentCompletionError (msg : String)
deriving DecidableEq, Repr

/-- A raw backend completion (`BackendResponse` in `backends.py`). -/
structure BackendResponse where
  completion : String
  promptTokens : Nat
  completionTokens : Nat
  totalTokens : Nat
  completionTimeSec : Nat
deriving DecidableEq, Repr

/-- A parsed JSON value, as returned by `json.loads`. -/
inductive JsonValue where
  | null
  | bool (b : Bool)
  | num (n : Int)
  | str (s : String)
  | arr (elems : List JsonValue)
  | obj (fields : List (String × JsonValue))

/-- The fully populated agent response (`AgentResponse` in
`data_types`): reasoning and orders as extracted from the completion,
normalized messages, the prompts and the backend cost figures. -/
structure AgentResponse where
  reasoning : JsonValue
  orders : JsonValue
  messages : List (String × String)
  systemPrompt : String
  userPrompt : String
  promptTokens : Nat
  completionTokens : Nat
  totalTokens : Nat
  completionTimeSec : Nat

/-- The opening brace character. -/
def lbrace : Char := Char.ofNat 123

/-- The closing brace character. -/
def rbrace : Char := Char.ofNat 125

/-- The characters stripped from the completion (space, backtick,
newline), from Python `.strip()` with that character set. -/
def stripSet : List Char := [' ', Char.ofNat 96, Char.ofNat 10]

/-- Python `s.strip(chars)`: drop the given characters from both ends. -/
def pyStrip (cs : List Char) (s : List Char) : List Char :=
  ((s.dropWhile (fun c => cs.contains c)).reverse.dropWhile
    (fun c => cs.contains c)).reverse

/-- Python `s.split(sep)[0]` for a non-empty separator: the text before
the first occurrence of the separator (the whole text when the separator
does not occur). -/
def splitFirstAux (sep : List Char) : List Char → List Char
  | [] => []
  | c :: cs => if sep.isPrefixOf (c :: cs) then [] else c :: splitFirstAux sep cs

/-- Whether `sub` occurs as a contiguous subsequence (Python `sub in s`
on strings; the empty string occurs in everything). -/
def listContainsSub (sub : List Char) : List Char → Bool
  | [] => sub.isEmpty
  | c :: cs => sub.isPrefixOf (c :: cs) || listContainsSub sub cs

/-- Python `s.index(c)`: index of the first occurrence, or `ValueError`. -/
def pyIndex (cs : List Char) (c : Char) : Except PyExc Nat :=
  match cs.findIdx? (fun x => x == c) with
  | some i => Except.ok i
  | none => Except.error (PyExc.valueError "substring not found")

/-- Python `s.rindex(c)`: index of the last occurrence, or `ValueError`. -/
def pyRindex (cs : List Char) (c : Char) : Except PyExc Nat :=
  match cs.reverse.findIdx? (fun x => x == c) with
  | some i => Except.ok (cs.length - 1 - i)
  | none => Except.error (PyExc.valueError "substring not found")

mutual

/-- Python `str()` applied to a parsed JSON value. -/
def jsonToStr : JsonValue → String
  | JsonValue.null => "None"
  | JsonValue.bool true => "True"
  | JsonValue.bool false => "False"
  | JsonValue.num n => toString n
  | JsonValue.str s => s
  | JsonValue.arr xs => "[" ++ jsonListToStr xs ++ "]"
  | JsonValue.obj fs => "\x7b" ++ jsonObjToStr fs ++ "\x7d"

/-- String rendering of a JSON array body. -/
def jsonListToStr : List JsonValue → String
  | [] => ""
  | x :: xs => jsonToStr x ++ ", " ++ jsonListToStr xs

/-- String rendering of a JSON object body. -/
def jsonObjToStr : List (String × JsonValue) → String
  | [] => ""
  | f :: fs => f.1 ++ ": " ++ jsonToStr f.2 ++ ", " ++ jsonObjToStr fs

end

/-- Python `completion[key]` on a parsed JSON value: a key lookup on a
dict, a `KeyError` when the key is missing, and a `TypeError` on
non-dict values. -/
def jGetItem (v : JsonValue) (key : String) : Except PyExc JsonValue :=
  match v with
  | JsonValue.obj fields =>
    match fields.lookup key with
    | some x => Except.ok x
    | none => Except.error (PyExc.keyError key)
  | JsonValue.arr _ => Except.error (PyExc.typeError "list indices must be integers or slices, not str")
  | _ => Except.error (PyExc.typeError "object is not subscriptable")

/-- Python `key in completion`: key membership for dicts, element
membership for lists, substring test for strings, `TypeError` otherwise. -/
def jContains (v : JsonValue) (key : String) : Except PyExc Bool :=
  match v with
  | JsonValue.obj fields => Except.ok (fields.any (fun p => p.1 = key))
  | JsonValue.arr xs =>
    Except.ok (xs.any (fun x => match x with
      | JsonValue.str s => s = key
      | _ => false))
  | JsonValue.str s => Except.ok (listContainsSub key.data s.data)
  | _ => Except.error (PyExc.typeError "argument is not iterable")

/-- Python `completion[key] = value`: item assignment, which only dicts
support. -/
def jSetItem (v : JsonValue) (key : String) (val : JsonValue) :
    Except PyExc JsonValue :=
  match v with
  | JsonValue.obj fields =>
    if fields.any (fun p => p.1 = key) then
      Except.ok (JsonValue.obj (fields.map (fun p => if p.1 = key then (key, val) else p)))
    else Except.ok (JsonValue.obj (fields ++ [(key, val)]))
  | _ => Except.error (PyExc.typeError "object does not support item assignment")

/-- Python `completion["messages"].items()`: dict items, or
`AttributeError` on anything that is not a dict. -/
def jItems (v : JsonValue) : Except PyExc (List (String × JsonValue)) :=
  match v with
  | JsonValue.obj fields => Except.ok fields
  | _ => Except.error (PyExc.attributeError "object has no attribute items")

/-- The per-order check of the `Clean orders` loop: iterating the orders
raises `AgentCompletionError` at the first non-string element of a list;
iterating a string or a dict yields only strings; anything else is not
iterable. -/
def checkOrders (orders : JsonValue) : Except PyExc Unit :=
  match orders with
  | JsonValue.arr xs =>
    if xs.all (fun o => match o with | JsonValue.str _ => true | _ => false) then
      Except.ok ()
    else Except.error (PyExc.agentCompletionError "Order is not a str")
  | JsonValue.str _ => Except.ok ()
  | JsonValue.obj _ => Except.ok ()
  | _ => Except.error (PyExc.typeError "object is not iterable")

/-- Python `" ".join(message)` on a parsed JSON list: joins string
elements, raises `TypeError` on a non-string element. -/
def joinSpace : List JsonValue → Except PyExc String
  | [] => Except.ok ""
  | [JsonValue.str s] => Except.ok s
  | JsonValue.str s :: rest => do
    let r ← joinSpace rest
    pure (s ++ " " ++ r)
  | _ => Except.error (PyExc.typeError "sequence item: expected str instance")

/-- Python dict assignment into the normalized messages mapping. -/
def upsertMessage (m : List (String × String)) (k v : String) :
    List (String × String) :=
  if m.any (fun p => p.1 = k) then
    m.map (fun p => if p.1 = k then (k, v) else p)
  else m ++ [(k, v)]

/-- The message-normalization loop of `LLMAgent.respond`, front to back
over the dict items with the accumulated messages dict: lists are joined
with spaces, non-strings are forced through `str()`, empty messages are
skipped, recipients are upper-cased. -/
def processMessagesAux (acc : List (String × String)) :
    List (String × JsonValue) → Except PyExc (List (String × String))
  | [] => Except.ok acc
  | (recipient, message) :: rest => do
    let msgStr ← (match message with
      | JsonValue.arr xs => joinSpace xs
      | JsonValue.str s => Except.ok s
      | v => Except.ok (jsonToStr v))
    if msgStr = "" then processMessagesAux acc rest
    else processMessagesAux (upsertMessage acc recipient.toUpper msgStr) rest

/-- The message-normalization loop, started from the empty dict. -/
def processMessages (items : List (String × JsonValue)) :
    Except PyExc (List (String × String)) :=
  processMessagesAux [] items

/-- A short rendering of an exception, used by the wrapper's message. -/
def pyExcStr : PyExc → String
  | PyExc.backendError m => m
  | PyExc.valueError m => m
  | PyExc.keyError m => m
  | PyExc.typeError m => m
  | PyExc.attributeError m => m
  | PyExc.jsonDecodeError m => m
  | PyExc.agentCompletionError m => m

/-- The body of the `try` block of `LLMAgent.respond` (lines 92-150 of
`agents.py`): call the backend, strip junk around the completion, locate
the JSON object between the outermost braces, parse it with `json.loads`
(modelled by the `loads` collaborator), extract the reasoning and the
orders, check every order is a string, enforce no messages in no-press
games and normalize the messages mapping. -/
def respondTry (usePreface : Bool) (prefacePrompt : String)
    (backendCall : Except PyExc BackendResponse)
    (loads : String → Except PyExc JsonValue) (noPress : Bool) :
    Except PyExc (BackendResponse × JsonValue × JsonValue × List (String × String)) := do
  let br ← backendCall
  let jsonCompletion0 :=
    if usePreface then prefacePrompt ++ br.completion else br.completion
  let jsonCompletion1 :=
    String.mk (pyStrip stripSet (splitFirstAux "**".data jsonCompletion0.data))
  let cs := jsonCompletion1.data
  let start ← pyIndex cs lbrace
  let last ← pyRindex cs rbrace
  let sliced := String.mk ((cs.drop start).take (last + 1 - start))
  let completion ← loads sliced
  let hasReasoning ← jContains completion "reasoning"
  let reasoning ←
    if hasReasoning then jGetItem completion "reasoning"
    else pure (JsonValue.str "*model outputted no reasoning*")
  let orders ← jGetItem completion "orders"
  let _ ← checkOrders orders
  let completion1 ←
    if noPress then jSetItem completion "messages" (JsonValue.obj [])
    else pure completion
  let msgsJson ← jGetItem completion1 "messages"
  let items ← jItems msgsJson
  let messages ← processMessages items
  pure (br, reasoning, orders, messages)

/-- `LLMAgent.respond`: run the `try` body; any exception it raises is
caught by the single `except Exception` clause and re-raised as an
`AgentCompletionError` carrying the causing error; on success the fully
populated `AgentResponse` is returned. -/
def llmAgentRespond (usePreface : Bool) (prefacePrompt : String)
    (backendCall : Except PyExc BackendResponse)
    (loads : String → Except PyExc JsonValue) (noPress : Bool)
    (systemPrompt userPrompt : String) : Except PyExc AgentResponse :=
  match respondTry usePreface prefacePrompt backendCall loads noPress with
  | Except.error exc =>
    Except.error (PyExc.agentCompletionError ("Exception: " ++ pyExcStr exc))
  | Except.ok (br, reasoning, orders, messages) =>
    Except.ok
      { reasoning := reasoning, orders := orders, messages := messages,
        systemPrompt := systemPrompt, userPrompt := userPrompt,
        promptTokens := br.promptTokens, completionTokens := br.completionTokens,
        totalTokens := br.totalTokens, completionTimeSec := br.completionTimeSec }

/-! ### Facts about the retry loop -/

lemma retryQueryAux_spec (respond : Nat → Except String NationResponse) :
    ∀ (fuel start : Nat),
      (retryQueryAux respond start fuel).numCalls ≤ fuel ∧
      (retryQueryAux respond start fuel).numWarnings =
        (retryQueryAux respond start fuel).numSleeps ∧
      (retryQueryAux respond start fuel).numCalls =
        (retryQueryAux respond start fuel).numWarnings +
          (if (retryQueryAux respond start fuel).response.isSome then 1 else 0) ∧
      ((retryQueryAux respond start fuel).response = none ↔
        ∀ j, j < fuel → ∃ e, respond (start + j) = Except.error e) ∧
      ((retryQueryAux respond start fuel).response = none →
        (retryQueryAux respond start fuel).numCalls = fuel) := by
  intro fuel
  induction fuel with
  | zero =>
    intro start
    simp [retryQueryAux]
  | succ n ih =>
    intro start
    rcases h : respond start with e | r
    · have hunfold : retryQueryAux respond start (n + 1) =
          { response := (retryQueryAux respond (start + 1) n).response,
            numCalls := (retryQueryAux respond (start + 1) n).numCalls + 1,
            numWarnings := (retryQueryAux respond (start + 1) n).numWarnings + 1,
            numSleeps := (retryQueryAux respond (start + 1) n).numSleeps + 1 } := by
        simp [retryQueryAux, h]
      obtain ⟨h1, h2, h3, h4, h5⟩ := ih (start + 1)
      rw [hunfold]
      dsimp only
      refine ⟨by omega, by omega, ?_, ?_, ?_⟩
      · rcases hr : (retryQueryAux respond (start + 1) n).response with _ | r'
        · simp [hr] at h3 ⊢; omega
        · simp [hr] at h3 ⊢; omega
      · constructor
        · intro hn j hj
          match j with
          | 0 => exact ⟨e, by simpa using h⟩
          | j + 1 =>
            have := h4.mp hn j (by omega)
            rwa [show start + 1 + j = start + (j + 1) by omega] at this
        · intro hall
          apply h4.mpr
          intro j hj
          have := hall (j + 1) (by omega)
          rwa [show start + (j + 1) = start + 1 + j by omega] at this
      · intro hn
        have := h5 hn
        omega
    · have hunfold : retryQueryAux respond start (n + 1) =
          { response := some r, numCalls := 1, numWarnings := 0, numSleeps := 0 } := by
        simp [retryQueryAux, h]
      rw [hunfold]
      dsimp only
      refine ⟨by omega, rfl, by simp, ?_, by intro hc; cases hc⟩
      constructor
      · intro hc; cases hc
      · intro hall
        obtain ⟨e, he⟩ := hall 0 (by omega)
        rw [Nat.add_zero, h] at he
        cases he

/-- Claim C3: for every single-agent query, the engine invokes the agent
at most `max_retries` times; every exception is caught (the loop's value
is an `Option`, never a propagated exception), logged as a warning and
followed by one fixed backoff sleep (warnings and sleeps both count the
failed attempts exactly); if all attempts fail the result is the explicit
no-response value `none`, and in that case the full retry budget was
spent. -/
theorem claim3_retry_policy (respond : Nat → Except String NationResponse)
    (maxRetries : Nat) :
    (retryQuery respond maxRetries).numCalls ≤ maxRetries ∧
    (retryQuery respond maxRetries).numWarnings =
      (retryQuery respond maxRetries).numSleeps ∧
    (retryQuery respond maxRetries).numCalls =
      (retryQuery respond maxRetries).numWarnings +
        (if (retryQuery respond maxRetries).response.isSome then 1 else 0) ∧
    ((retryQuery respond maxRetries).response = none ↔
      ∀ k, k < maxRetries → ∃ e, respond k = Except.error e) ∧
    ((retryQuery respond maxRetries).response = none →
      (retryQuery respond maxRetries).numCalls = maxRetries) := by
  have := retryQueryAux_spec respond maxRetries 0
  simpa [retryQuery] using this

/-! ### Facts about clamping (claim C4) -/

lemma clampValue_mem (b : FieldBounds) (v : Int) (h : b.lo ≤ b.hi) :
    b.lo ≤ clampValue b v ∧ clampValue b v ≤ b.hi :=
  ⟨le_max_left _ _, max_le h (min_le_left _ _)⟩

/-- Example action catalog used by concrete instantiations. -/
def exTable : List (String × ActionEffectSpec) :=
  [("boost", { actorDeltas := [("power", 60)], targetDeltas := [], tags := ["provoking"] })]

/-- Example clamping bounds used by concrete instantiations. -/
def exBounds : List FieldBounds := [{ field := "power", lo := 0, hi := 100 }]

/-- Example nation roster used by concrete instantiations. -/
def exNations : List NationState := [{ name := "A", dynamicVars := [("power", 50)] }]

/-- Example action batch that pushes `power` above its configured
maximum when clamping is disabled. -/
def exActions : List Action :=
  [{ self := "A", other := "A", name := "boost", content := "" },
   { self := "A", other := "A", name := "boost", content := "" }]

/-- Claim C4: with clamping enabled, after any resolution step every
dynamic field that has a configured bound lies in its `[min, max]`; with
clamping disabled, resolution is the raw delta accumulation and no bound
is enforced — witnessed by a concrete batch that drives a bounded field
above its maximum. -/
theorem claim4_clamping (table : List (String × ActionEffectSpec))
    (bounds : List FieldBounds) (ns : List NationState) (acts : List Action)
    (hwf : ∀ b ∈ bounds, b.lo ≤ b.hi)
    (hnd : (bounds.map (fun b => b.field)).Nodup) :
    (∀ n ∈ resolve table bounds true ns acts, ∀ p ∈ n.dynamicVars,
      ∀ b ∈ bounds, b.field = p.1 → b.lo ≤ p.2 ∧ p.2 ≤ b.hi) ∧
    (resolve table bounds false ns acts = acts.foldl (applyActionToNations table) ns) ∧
    (∃ n ∈ resolve exTable exBounds false exNations exActions,
      ∃ p ∈ n.dynamicVars, ∃ b ∈ exBounds, b.field = p.1 ∧ b.hi < p.2) := by
  refine ⟨?_, by simp [resolve], by decide⟩
  intro n hn p hp b hb hf
  simp only [resolve, if_true] at hn
  obtain ⟨x, hx, rfl⟩ := List.mem_map.mp hn
  simp only [clampVars] at hp
  obtain ⟨q, hq, hpq⟩ := List.mem_map.mp hp
  rcases hfind : bounds.find? (fun b' => b'.field == q.1) with _ | b0
  · rw [hfind] at hpq
    rw [List.find?_eq_none] at hfind
    subst hpq
    exact absurd (by simpa using hf) (by simpa using hfind b hb)
  · rw [hfind] at hpq
    have hb0mem : b0 ∈ bounds := List.mem_of_find?_eq_some hfind
    have hb0f : b0.field = q.1 := by simpa using List.find?_some hfind
    have hbb0 : b = b0 := by
      apply List.inj_on_of_nodup_map hnd hb hb0mem
      subst hpq
      simpa [hb0f] using hf
    subst hbb0
    have := clampValue_mem b q.2 (hwf b hb)
    rw [← hpq]
    exact this

/-- Witness for claim C4 at the concrete example configuration. -/
theorem claim4_clamping_witness :
    ((∀ b ∈ exBounds, b.lo ≤ b.hi) ∧ (exBounds.map (fun b => b.field)).Nodup) ∧
    ((∀ n ∈ resolve exTable exBounds true exNations exActions, ∀ p ∈ n.dynamicVars,
      ∀ b ∈ exBounds, b.field = p.1 → b.lo ≤ p.2 ∧ p.2 ≤ b.hi) ∧
    (resolve exTable exBounds false exNations exActions =
      exActions.foldl (applyActionToNations exTable) exNations) ∧
    (∃ n ∈ resolve exTable exBounds false exNations exActions,
      ∃ p ∈ n.dynamicVars, ∃ b ∈ exBounds, b.field = p.1 ∧ b.hi < p.2)) :=
  ⟨⟨by decide, by decide⟩,
    claim4_clamping exTable exBounds exNations exActions (by decide) (by decide)⟩

/-! ### Facts about unknown action kinds (claim C7) -/

/-- Claim C7: an action whose kind is absent from the catalog is dropped
by resolution — it alters no nation state, the whole state update with it
equals the state update without it (so nothing raises past the
resolution step and the turn proceeds), it contributes to no
classification-tag count, and its kind is surfaced as a warning. -/
theorem claim7_unknown_action (cfg : SimConfig) (w : World)
    (ns : List NationState) (pre post : List Action) (a : Action) (tg : String)
    (h : cfg.table.lookup a.name = none) :
    applyActionToNations cfg.table ns a = ns ∧
    World.updateState cfg w (pre ++ a :: post) =
      World.updateState cfg w (pre ++ post) ∧
    countTag cfg.table tg (pre ++ a :: post) = countTag cfg.table tg (pre ++ post) ∧
    a.name ∈ resolveWarnings cfg.table (pre ++ a :: post) := by
  have hdrop : ∀ ms : List NationState, applyActionToNations cfg.table ms a = ms := by
    intro ms
    simp [applyActionToNations, h]
  refine ⟨hdrop ns, ?_, ?_, ?_⟩
  · simp only [World.updateState, resolve, List.foldl_append, List.foldl_cons,
      hdrop]
  · simp [countTag, List.countP_append, List.countP_cons, h]
  · exact List.mem_filterMap.mpr ⟨a, by simp, by simp [resolveWarnings, h]⟩

/-- Witness for claim C7 at a concrete unknown action. -/
theorem claim7_unknown_action_witness :
    ((exTable.lookup "sing") = none) ∧
    (applyActionToNations exTable exNations
        { self := "A", other := "A", name := "sing", content := "" } = exNations ∧
      World.updateState
          { table := exTable, bounds := exBounds, clamp := false,
            maxRetries := 1, trackedTags := ["provoking"] }
          { nations := exNations, currentDay := 0, maxDays := 0,
            consequenceHistory := [] }
          (exActions ++ { self := "A", other := "A", name := "sing", content := "" } :: []) =
        World.updateState
          { table := exTable, bounds := exBounds, clamp := false,
            maxRetries := 1, trackedTags := ["provoking"] }
          { nations := exNations, currentDay := 0, maxDays := 0,
            consequenceHistory := [] }
          (exActions ++ []) ∧
      countTag exTable "provoking"
          (exActions ++ { self := "A", other := "A", name := "sing", content := "" } :: []) =
        countTag exTable "provoking" (exActions ++ []) ∧
      "sing" ∈ resolveWarnings exTable
        (exActions ++ { self := "A", other := "A", name := "sing", content := "" } :: [])) :=
  ⟨by decide,
    claim7_unknown_action
      { table := exTable, bounds := exBounds, clamp := false,
        maxRetries := 1, trackedTags := ["provoking"] }
      { nations := exNations, currentDay := 0, maxDays := 0, consequenceHistory := [] }
      exNations exActions []
      { self := "A", other := "A", name := "sing", content := "" } "provoking"
      (by decide)⟩

/-! ### Facts about the agent response path (claim C10) -/

/-- A backend completion with no JSON object in it (extraction fails). -/
def exBackendNoJson : BackendResponse :=
  { completion := "no json here", promptTokens := 1, completionTokens := 1,
    totalTokens := 2, completionTimeSec := 1 }

/-- A backend completion that is exactly an (empty) JSON object. -/
def exBackendOk : BackendResponse :=
  { completion := "\x7b\x7d", promptTokens := 1, completionTokens := 1,
    totalTokens := 2, completionTimeSec := 1 }

/-- A `json.loads` collaborator that always fails to parse. -/
def exLoadsFail : String → Except PyExc JsonValue :=
  fun _ => Except.error (PyExc.jsonDecodeError "Expecting value")

/-- A `json.loads` collaborator returning an object with no `orders`. -/
def exLoadsNoOrders : String → Except PyExc JsonValue :=
  fun _ => Except.ok (JsonValue.obj [("reasoning", JsonValue.str "r")])

/-- A `json.loads` collaborator returning an object whose `orders` list
contains a non-string element. -/
def exLoadsBadOrder : String → Except PyExc JsonValue :=
  fun _ => Except.ok (JsonValue.obj
    [("orders", JsonValue.arr [JsonValue.num 1]), ("messages", JsonValue.obj [])])

/-- Claim C10: `LLMAgent.respond` either returns a fully populated
response or raises exactly one exception type: every failure inside the
response path is wrapped by the single `except Exception` clause into an
`AgentCompletionError`; in particular a backend error, a JSON extraction
failure (no braces in the completion), a JSON parsing failure, a missing
`orders` key and a non-string order each surface as that one type. -/
theorem claim10_respond_error_channel :
    (∀ (up : Bool) (pp : String) (bc : Except PyExc BackendResponse)
      (loads : String → Except PyExc JsonValue) (np : Bool) (sp upr : String),
      (∃ r, llmAgentRespond up pp bc loads np sp upr = Except.ok r) ∨
      (∃ m, llmAgentRespond up pp bc loads np sp upr =
        Except.error (PyExc.agentCompletionError m))) ∧
    (∀ (up : Bool) (pp : String) (e : PyExc)
      (loads : String → Except PyExc JsonValue) (np : Bool) (sp upr : String),
      llmAgentRespond up pp (Except.error e) loads np sp upr =
        Except.error (PyExc.agentCompletionError ("Exception: " ++ pyExcStr e))) ∧
    (∃ m, llmAgentRespond false "" (Except.ok exBackendNoJson) exLoadsFail false "" "" =
      Except.error (PyExc.agentCompletionError m)) ∧
    (∃ m, llmAgentRespond false "" (Except.ok exBackendOk) exLoadsFail false "" "" =
      Except.error (PyExc.agentCompletionError m)) ∧
    (∃ m, llmAgentRespond false "" (Except.ok exBackendOk) exLoadsNoOrders false "" "" =
      Except.error (PyExc.agentCompletionError m)) ∧
    (∃ m, llmAgentRespond false "" (Except.ok exBackendOk) exLoadsBadOrder false "" "" =
      Except.error (PyExc.agentCompletionError m)) := by
  refine ⟨?_, ?_, ⟨"Exception: substring not found", rfl⟩,
    ⟨"Exception: Expecting value", rfl⟩, ⟨"Exception: orders", rfl⟩,
    ⟨"Exception: Order is not a str", rfl⟩⟩
  · intro up pp bc loads np sp upr
    rcases h : respondTry up pp bc loads np with e | x
    · exact Or.inr ⟨"Exception: " ++ pyExcStr e, by simp [llmAgentRespond, h]⟩
    · obtain ⟨br, rs, od, ms⟩ := x
      exact Or.inl
        ⟨{ reasoning := rs, orders := od, messages := ms, systemPrompt := sp,
           userPrompt := upr, promptTokens := br.promptTokens,
           completionTokens := br.completionTokens, totalTokens := br.totalTokens,
           completionTimeSec := br.completionTimeSec },
          by simp [llmAgentRespond, h]⟩
  · intro up pp e loads np sp upr
    rfl

/-! ### Facts about response collection and the turn (claim C2) -/

lemma collectResponses_spec (maxRetries : Nat) :
    ∀ behaviors : List AgentBehavior,
      collectResponses behaviors maxRetries =
        { queuedActions :=
            (behaviors.filterMap (respOf maxRetries)).flatMap (fun r => r.actions),
          modelResponses := behaviors.filterMap (respOf maxRetries),
          numFailed := behaviors.countP (fun b => (respOf maxRetries b).isNone) } := by
  intro behaviors
  induction behaviors with
  | nil => rfl
  | cons b bs ih =>
    rcases h : respOf maxRetries b with _ | r
    · simp [collectResponses, h, ih, List.filterMap_cons, List.countP_cons]
    · simp [collectResponses, h, ih, List.filterMap_cons, List.countP_cons,
        List.flatMap_cons]

lemma applyAction_untouched (table : List (String × ActionEffectSpec))
    (ns : List NationState) (a : Action) (n : NationState)
    (hn : n ∈ ns) (h1 : a.self ≠ n.name) (h2 : a.other ≠ n.name) :
    n ∈ applyActionToNations table ns a := by
  rcases hl : table.lookup a.name with _ | spec
  · simpa [applyActionToNations, hl] using hn
  · simp only [applyActionToNations, hl]
    refine List.mem_map.mpr ⟨n, hn, ?_⟩
    have e1 : ¬(n.name = a.self) := fun hh => h1 hh.symm
    have e2 : ¬(n.name = a.other) := fun hh => h2 hh.symm
    simp [e1, e2]

lemma foldl_untouched (table : List (String × ActionEffectSpec)) :
    ∀ (acts : List Action) (ns : List NationState) (n : NationState),
      n ∈ ns → (∀ a ∈ acts, a.self ≠ n.name ∧ a.other ≠ n.name) →
      n ∈ acts.foldl (applyActionToNations table) ns := by
  intro acts
  induction acts with
  | nil => intro ns n hn _; simpa using hn
  | cons a as ih =>
    intro ns n hn hall
    simp only [List.foldl_cons]
    exact ih _ n
      (applyAction_untouched table ns a n hn (hall a (by simp)).1 (hall a (by simp)).2)
      (fun x hx => hall x (by simp [hx]))

/-- The per-tag counts of one turn's queued actions. -/
def turnDailyOf (cfg : SimConfig) (behaviors : List AgentBehavior) : List Nat :=
  cfg.trackedTags.map (fun tg =>
    countTag cfg.table tg (collectResponses behaviors cfg.maxRetries).queuedActions)

/-- The metric log of one turn, given the incoming whole-run lists. -/
def turnLogOf (cfg : SimConfig) (behaviors : List AgentBehavior) (day : Nat)
    (m : List (List Nat)) : TurnLog :=
  let mNew := appendCounts m (turnDailyOf cfg behaviors)
  { day := day, dailyCounts := turnDailyOf cfg behaviors,
    sumCounts := mNew.map (fun l => l.sum),
    maxCounts := mNew.map (fun l => l.foldl max 0) }

/-- The world after one non-aborting turn played with the given roster
behaviours: state update followed by the history write. -/
def turnWorld (cfg : SimConfig) (su : World → WorldModelResponse)
    (behaviors : List AgentBehavior) (w : World) : World :=
  let w1 := World.updateState cfg w (collectResponses behaviors cfg.maxRetries).queuedActions
  { w1 with consequenceHistory := setHistory w1.consequenceHistory w1.previousDay (su w1) }

lemma runTurn_ok (cfg : SimConfig) (su : World → WorldModelResponse)
    (behaviors : List AgentBehavior) (w : World) (m : List (List Nat))
    (hne : (collectResponses behaviors cfg.maxRetries).numFailed ≠ behaviors.length) :
    runTurn cfg su behaviors w m =
      { events := queryEvents w.currentDay behaviors cfg.maxRetries ++
          (resolveWarnings cfg.table
            (collectResponses behaviors cfg.maxRetries).queuedActions).map
            (Event.unknownActionWarning w.currentDay) ++
          [Event.resolved w.currentDay, Event.dayAdvanced (w.currentDay + 1),
           Event.summarized w.currentDay, Event.recorded w.currentDay],
        result := Except.ok (turnWorld cfg su behaviors w,
          appendCounts m (turnDailyOf cfg behaviors),
          turnLogOf cfg behaviors w.currentDay m) } := by
  simp only [runTurn, if_neg hne, turnWorld, turnDailyOf, turnLogOf,
    World.updateState, World.previousDay, Nat.add_sub_cancel]

/-- Claim C2: when `k` of `n` agents fail in a turn (`0 < k < n`), the
turn still completes: the state update runs on exactly the actions of
the agents that responded (in collection order), the day counter
advances by one, and (without clamping) a nation not named by any queued
action keeps its prior state. -/
theorem claim2_partial_failure (cfg : SimConfig) (su : World → WorldModelResponse)
    (behaviors : List AgentBehavior) (w : World) (m : List (List Nat))
    (_h0 : 0 < (collectResponses behaviors cfg.maxRetries).numFailed)
    (hn : (collectResponses behaviors cfg.maxRetries).numFailed < behaviors.length) :
    ∃ w2 m2 lg, (runTurn cfg su behaviors w m).result = Except.ok (w2, m2, lg) ∧
      w2.currentDay = w.currentDay + 1 ∧
      w2.nations = resolve cfg.table cfg.bounds cfg.clamp w.nations
        ((behaviors.filterMap (respOf cfg.maxRetries)).flatMap (fun r => r.actions)) ∧
      (cfg.clamp = false →
        ∀ n ∈ w.nations,
          (∀ a ∈ (collectResponses behaviors cfg.maxRetries).queuedActions,
            a.self ≠ n.name ∧ a.other ≠ n.name) →
          n ∈ w2.nations) := by
  have hne : (collectResponses behaviors cfg.maxRetries).numFailed ≠ behaviors.length :=
    Nat.ne_of_lt hn
  refine ⟨turnWorld cfg su behaviors w, appendCounts m (turnDailyOf cfg behaviors),
    turnLogOf cfg behaviors w.currentDay m, by rw [runTurn_ok cfg su behaviors w m hne],
    rfl, ?_, ?_⟩
  · have hq : (turnWorld cfg su behaviors w).nations =
        resolve cfg.table cfg.bounds cfg.clamp w.nations
          (collectResponses behaviors cfg.maxRetries).queuedActions := rfl
    rw [hq, collectResponses_spec]
  · intro hclamp n hmem hunt
    have hq : (turnWorld cfg su behaviors w).nations =
        resolve cfg.table cfg.bounds cfg.clamp w.nations
          (collectResponses behaviors cfg.maxRetries).queuedActions := rfl
    rw [hq, hclamp]
    simp only [resolve, if_neg (by simp : ¬(false = true))]
    exact foldl_untouched cfg.table _ w.nations n hmem hunt

/-- A nation response used by concrete instantiations. -/
def sampleResp : NationResponse :=
  { reasoning := "r",
    actions := [{ self := "A", other := "B", name := "boost", content := "" }],
    systemPrompt := "s", userPrompt := "u", promptTokens := 1,
    completionTokens := 1, totalTokens := 2, completionTimeSec := 1 }

/-- An agent that always raises. -/
def failB : AgentBehavior := fun _ => Except.error "boom"

/-- An agent that responds on the first attempt. -/
def okB : AgentBehavior := fun _ => Except.ok sampleResp

/-- A two-nation world used by concrete instantiations. -/
def sampleWorld : World :=
  { nations := [{ name := "A", dynamicVars := [("power", 50)] },
                { name := "B", dynamicVars := [("power", 50)] }],
    currentDay := 0, maxDays := 0, consequenceHistory := [] }

/-- A configuration used by concrete instantiations. -/
def sampleCfg : SimConfig :=
  { table := exTable, bounds := exBounds, clamp := false, maxRetries := 2,
    trackedTags := ["provoking"] }

/-- A summarizer used by concrete instantiations. -/
def sampleSu : World → WorldModelResponse :=
  fun _ => { consequences := "c", systemPrompt := "s", userPrompt := "u",
             promptTokens := 0, completionTokens := 0, totalTokens := 0,
             completionTimeSec := 0 }

/-- Witness for claim C2: one of two agents fails; the turn completes on
the survivor's actions. -/
theorem claim2_partial_failure_witness :
    (0 < (collectResponses [failB, okB] sampleCfg.maxRetries).numFailed ∧
      (collectResponses [failB, okB] sampleCfg.maxRetries).numFailed < 2) ∧
    (∃ w2 m2 lg,
      (runTurn sampleCfg sampleSu [failB, okB] sampleWorld [[]]).result =
        Except.ok (w2, m2, lg) ∧
      w2.currentDay = sampleWorld.currentDay + 1 ∧
      w2.nations = resolve sampleCfg.table sampleCfg.bounds sampleCfg.clamp
        sampleWorld.nations
        (([failB, okB].filterMap (respOf sampleCfg.maxRetries)).flatMap
          (fun r => r.actions)) ∧
      (sampleCfg.clamp = false →
        ∀ n ∈ sampleWorld.nations,
          (∀ a ∈ (collectResponses [failB, okB] sampleCfg.maxRetries).queuedActions,
            a.self ≠ n.name ∧ a.other ≠ n.name) →
          n ∈ w2.nations)) :=
  ⟨⟨by decide, by decide⟩,
    claim2_partial_failure sampleCfg sampleSu [failB, okB] sampleWorld [[]]
      (by decide) (by decide)⟩

/-! ### Facts about response attribution in the log tables (claim C9) -/

/-- The per-roster-slot success bits of one turn. -/
def successBits (behaviors : List AgentBehavior) (mr : Nat) : List Bool :=
  behaviors.map (fun b => (respOf mr b).isSome)

lemma succIndicesAux_mem : ∀ (bs : List Bool) (s x : Nat),
    x ∈ succIndicesAux bs s → s ≤ x ∧ x < s + bs.length := by
  intro bs
  induction bs with
  | nil => intro s x hx; simp [succIndicesAux] at hx
  | cons b t ih =>
    intro s x hx
    cases b
    · simp only [succIndicesAux, Bool.false_eq_true, if_false] at hx
      have := ih (s + 1) x hx
      refine ⟨by omega, by simp only [List.length_cons]; omega⟩
    · simp only [succIndicesAux, if_true] at hx
      rcases List.mem_cons.mp hx with rfl | hx
      · simp
      · have := ih (s + 1) x hx
        refine ⟨by omega, by simp only [List.length_cons]; omega⟩

lemma succIndicesAux_getElem : ∀ (bs : List Bool) (s j e : Nat),
    (succIndicesAux bs s)[j]? = some e →
    (bs.take (e - s)).count true = j ∧ bs[e - s]? = some true := by
  intro bs
  induction bs with
  | nil => intro s j e h; simp [succIndicesAux] at h
  | cons b t ih =>
    intro s j e h
    cases b
    · simp only [succIndicesAux, Bool.false_eq_true, if_false] at h
      have hmem := succIndicesAux_mem t (s + 1) e (List.getElem?_mem h)
      obtain ⟨h1, h2⟩ := ih (s + 1) j e h
      have hes : e - s = (e - (s + 1)) + 1 := by omega
      rw [hes]
      constructor
      · simpa [List.take_succ_cons] using h1
      · simpa [List.getElem?_cons_succ] using h2
    · simp only [succIndicesAux, if_true] at h
      match j, h with
      | 0, h =>
        have he : e = s := by simpa using h.symm
        subst he
        simp
      | j + 1, h =>
        simp only [List.getElem?_cons_succ] at h
        have hmem := succIndicesAux_mem t (s + 1) e (List.getElem?_mem h)
        obtain ⟨h1, h2⟩ := ih (s + 1) j e h
        have hes : e - s = (e - (s + 1)) + 1 := by omega
        rw [hes]
        constructor
        · simpa [List.take_succ_cons, List.count_cons] using h1
        · simpa [List.getElem?_cons_succ] using h2

lemma filterMap_getElem_succIndices {α β : Type} (f : α → Option β) :
    ∀ (l : List α) (s j : Nat),
      (l.filterMap f)[j]? =
        ((succIndicesAux (l.map (fun a => (f a).isSome)) s)[j]?).bind
          (fun e => l[e - s]?.bind f) := by
  intro l
  induction l with
  | nil => intro s j; simp [succIndicesAux]
  | cons a t ih =>
    intro s j
    rcases hf : f a with _ | b
    · simp only [List.map_cons, hf, Option.isSome_none, List.filterMap_cons,
        succIndicesAux, Bool.false_eq_true, if_false]
      rw [ih (s + 1) j]
      rcases haux : (succIndicesAux (t.map (fun a => (f a).isSome)) (s + 1))[j]? with _ | e
      · rfl
      · have hmem := succIndicesAux_mem _ (s + 1) e (List.getElem?_mem haux)
        simp only [Option.some_bind]
        have hes : e - s = (e - (s + 1)) + 1 := by
          simp only [List.length_map] at hmem
          omega
        rw [hes, List.getElem?_cons_succ]
    · simp only [List.map_cons, hf, Option.isSome_some, List.filterMap_cons,
        succIndicesAux, if_true]
      match j with
      | 0 =>
        simp [hf, Nat.sub_self]
      | j + 1 =>
        simp only [List.getElem?_cons_succ]
        rw [ih (s + 1) j]
        rcases haux : (succIndicesAux (t.map (fun a => (f a).isSome)) (s + 1))[j]? with _ | e
        · rfl
        · have hmem := succIndicesAux_mem _ (s + 1) e (List.getElem?_mem haux)
          simp only [Option.some_bind]
          have hes : e - s = (e - (s + 1)) + 1 := by
            simp only [List.length_map] at hmem
            omega
          rw [hes, List.getElem?_cons_succ]

lemma zip_getElem?_some {α β : Type} :
    ∀ (as : List α) (bs : List β) (j : Nat) (a : α) (b : β),
      as[j]? = some a → bs[j]? = some b → (as.zip bs)[j]? = some (a, b) := by
  intro as
  induction as with
  | nil => intro bs j a b h _; simp at h
  | cons x t ih =>
    intro bs j a b h1 h2
    cases bs with
    | nil => simp at h2
    | cons y u =>
      match j with
      | 0 =>
        simp only [List.getElem?_cons_zero, Option.some.injEq] at h1 h2
        simp [List.zip_cons_cons, h1, h2]
      | j + 1 =>
        simp only [List.getElem?_cons_succ] at h1 h2
        simpa [List.zip_cons_cons] using ih u j a b h1 h2

/-- Claim C9 (implicit): the per-turn response log tables pair the j-th
collected response with the j-th nation of the configured roster
(`zip(nations, model_responses)`), while the j-th collected response was
actually produced by the agent at roster index `e` (the j-th successful
slot); whenever some agent with a smaller index failed, `j < e`, so the
response is attributed to a nation other than the one that produced it. -/
theorem claim9_response_misattribution (behaviors : List AgentBehavior)
    (mr : Nat) (names : List String) (j e : Nat)
    (hj : (succIndicesAux (successBits behaviors mr) 0)[j]? = some e)
    (hfail : ∃ f, f < e ∧ (successBits behaviors mr)[f]? = some false)
    (hn : j < names.length) :
    (∃ r, behaviors[e]?.bind (respOf mr) = some r ∧
      (responseLogRows names (collectResponses behaviors mr).modelResponses)[j]? =
        some (names[j], r)) ∧ j < e := by
  obtain ⟨hcount, hbit⟩ := succIndicesAux_getElem (successBits behaviors mr) 0 j e hj
  rw [Nat.sub_zero] at hcount hbit
  have hlenbits : (successBits behaviors mr).length = behaviors.length := by
    simp [successBits]
  have helt : e < behaviors.length := by
    by_contra hcon
    rw [List.getElem?_eq_none (by omega)] at hbit
    cases hbit
  obtain ⟨f, hfe, hbf⟩ := hfail
  have hje : j < e := by
    have htlen : ((successBits behaviors mr).take e).length = e := by
      simp [List.length_take]
      omega
    have hcle := List.count_le_length true ((successBits behaviors mr).take e)
    by_contra hcon
    have hceq : ((successBits behaviors mr).take e).count true =
        ((successBits behaviors mr).take e).length := by omega
    have hall := List.count_eq_length.mp hceq
    have hmemf : (false : Bool) ∈ (successBits behaviors mr).take e := by
      apply List.getElem?_mem (n := f)
      rw [List.getElem?_take]
      simp [hfe, hbf]
    cases hall false hmemf
  refine ⟨?_, hje⟩
  have hcorr := filterMap_getElem_succIndices (respOf mr) behaviors 0 j
  have hbits : behaviors.map (fun b => (respOf mr b).isSome) = successBits behaviors mr := rfl
  rw [hbits, hj] at hcorr
  simp only [Option.some_bind, Nat.sub_zero] at hcorr
  have hbe : behaviors[e]? = some behaviors[e] := List.getElem?_eq_getElem helt
  have hsome : (respOf mr behaviors[e]).isSome = true := by
    have : (successBits behaviors mr)[e]? = some ((respOf mr behaviors[e]).isSome) := by
      simp only [successBits]
      rw [List.getElem?_map, hbe]
      rfl
    rw [this] at hbit
    exact (Option.some.injEq _ _).mp hbit
  obtain ⟨r, hr⟩ := Option.isSome_iff_exists.mp hsome
  refine ⟨r, ?_, ?_⟩
  · rw [hbe]
    simp [hr]
  · have hmr : (collectResponses behaviors mr).modelResponses[j]? = some r := by
      rw [collectResponses_spec]
      rw [hcorr, hbe]
      simp [hr]
    exact zip_getElem?_some names _ j names[j] r (List.getElem?_eq_getElem hn) hmr

/-- Witness for claim C9: with roster `[A, B]`, agent 0 failing and
agent 1 responding, the single logged row is attributed to nation `A`
while the response was produced by agent 1. -/
theorem claim9_response_misattribution_witness :
    ((succIndicesAux (successBits [failB, okB] 1) 0)[0]? = some 1 ∧
      (∃ f, f < 1 ∧ (successBits [failB, okB] 1)[f]? = some false) ∧
      0 < (["A", "B"] : List String).length) ∧
    ((∃ r, ([failB, okB] : List AgentBehavior)[1]?.bind (respOf 1) = some r ∧
      (responseLogRows ["A", "B"] (collectResponses [failB, okB] 1).modelResponses)[0]? =
        some ((["A", "B"] : List String)[0], r)) ∧ 0 < 1) :=
  ⟨⟨by decide, ⟨0, by decide, by decide⟩, by decide⟩,
    claim9_response_misattribution [failB, okB] 1 ["A", "B"] 0 1
      (by decide) ⟨0, by decide, by decide⟩ (by decide)⟩

/-! ### Closed form of the main loop (claims C1, C5, C6, C8) -/

lemma runTurn_blackout (cfg : SimConfig) (su : World → WorldModelResponse)
    (behaviors : List AgentBehavior) (w : World) (m : List (List Nat))
    (hb : (collectResponses behaviors cfg.maxRetries).numFailed = behaviors.length) :
    runTurn cfg su behaviors w m =
      { events := queryEvents w.currentDay behaviors cfg.maxRetries ++
          [Event.aborted w.currentDay],
        result := Except.error "All nations exceeded max retries, ending simulation" } := by
  simp only [runTurn, if_pos hb]

lemma runTurn_ok_at (cfg : SimConfig) (su : World → WorldModelResponse)
    (bs : Behaviors) (w : World) (m : List (List Nat))
    (hne : (dayCollect cfg bs w.currentDay).numFailed ≠ (bs w.currentDay).length) :
    runTurn cfg su (bs w.currentDay) w m =
      { events := turnEventsAt cfg bs w.currentDay,
        result := Except.ok (stepWorld cfg su bs w,
          appendCounts m (turnDaily cfg bs w.currentDay),
          logAt cfg bs w.currentDay m) } := by
  rw [runTurn_ok cfg su (bs w.currentDay) w m hne]
  rfl

lemma stepWorld_currentDay (cfg : SimConfig) (su : World → WorldModelResponse)
    (bs : Behaviors) (w : World) :
    (stepWorld cfg su bs w).currentDay = w.currentDay + 1 := rfl

lemma stepWorld_maxDays (cfg : SimConfig) (su : World → WorldModelResponse)
    (bs : Behaviors) (w : World) :
    (stepWorld cfg su bs w).maxDays = w.maxDays := rfl

lemma runSimAux_closed (cfg : SimConfig) (su : World → WorldModelResponse)
    (bs : Behaviors) :
    ∀ (k : Nat) (w : World) (m : List (List Nat)),
      w.currentDay + k = w.maxDays + 1 →
      (∀ d, w.currentDay ≤ d → d ≤ w.maxDays →
        (dayCollect cfg bs d).numFailed ≠ (bs d).length) →
      runSimAux cfg su bs k w m =
        { events := (List.range' w.currentDay k).flatMap (turnEventsAt cfg bs),
          final := Except.ok (iterWorld cfg su bs k w),
          metrics := metricsClosed cfg bs w.currentDay k m,
          logs := logsClosed cfg bs w.currentDay k m } := by
  intro k
  induction k with
  | zero =>
    intro w m hk hb
    simp [runSimAux, iterWorld, metricsClosed, logsClosed]
  | succ n ih =>
    intro w m hk hb
    have hd : w.currentDay ≤ w.maxDays := by omega
    have hcol := hb w.currentDay (le_refl _) hd
    have hstep := runTurn_ok_at cfg su bs w m hcol
    have hrec := ih (stepWorld cfg su bs w)
      (appendCounts m (turnDaily cfg bs w.currentDay))
      (by rw [stepWorld_currentDay, stepWorld_maxDays]; omega)
      (fun d hd1 hd2 => hb d (by rw [stepWorld_currentDay] at hd1; omega)
        (by rwa [stepWorld_maxDays] at hd2))
    simp only [runSimAux, if_pos hd, hstep, hrec, stepWorld_currentDay,
      stepWorld_maxDays]
    simp only [List.range'_succ, List.flatMap_cons, iterWorld, metricsClosed,
      logsClosed]

lemma runSimAux_metrics_indep (cfg : SimConfig) (su : World → WorldModelResponse)
    (bs : Behaviors) :
    ∀ (k : Nat) (w : World) (m₁ m₂ : List (List Nat)),
      (runSimAux cfg su bs k w m₁).events = (runSimAux cfg su bs k w m₂).events ∧
      (runSimAux cfg su bs k w m₁).final = (runSimAux cfg su bs k w m₂).final := by
  intro k
  induction k with
  | zero => intro w m₁ m₂; exact ⟨rfl, rfl⟩
  | succ n ih =>
    intro w m₁ m₂
    by_cases hd : w.currentDay ≤ w.maxDays
    · by_cases hb : (collectResponses (bs w.currentDay) cfg.maxRetries).numFailed =
          (bs w.currentDay).length
      · have e1 := runTurn_blackout cfg su (bs w.currentDay) w m₁ hb
        have e2 := runTurn_blackout cfg su (bs w.currentDay) w m₂ hb
        simp only [runSimAux, if_pos hd, e1, e2]
        exact ⟨by trivial, by trivial⟩
      · have e1 := runTurn_ok_at cfg su bs w m₁ hb
        have e2 := runTurn_ok_at cfg su bs w m₂ hb
        have hih := ih (stepWorld cfg su bs w)
          (appendCounts m₁ (turnDaily cfg bs w.currentDay))
          (appendCounts m₂ (turnDaily cfg bs w.currentDay))
        simp only [runSimAux, if_pos hd, e1, e2]
        exact ⟨by rw [hih.1], hih.2⟩
    · simp only [runSimAux, if_neg hd]
      exact ⟨by trivial, by trivial⟩

lemma iterWorld_currentDay (cfg : SimConfig) (su : World → WorldModelResponse)
    (bs : Behaviors) :
    ∀ (k : Nat) (w : World), (iterWorld cfg su bs k w).currentDay = w.currentDay + k := by
  intro k
  induction k with
  | zero => intro w; rfl
  | succ n ih =>
    intro w
    simp only [iterWorld]
    rw [ih (stepWorld cfg su bs w), stepWorld_currentDay]
    omega

lemma iterWorld_maxDays (cfg : SimConfig) (su : World → WorldModelResponse)
    (bs : Behaviors) :
    ∀ (k : Nat) (w : World), (iterWorld cfg su bs k w).maxDays = w.maxDays := by
  intro k
  induction k with
  | zero => intro w; rfl
  | succ n ih =>
    intro w
    simp only [iterWorld]
    rw [ih (stepWorld cfg su bs w), stepWorld_maxDays]

lemma setHistory_append (h : List (Nat × WorldModelResponse)) (d : Nat)
    (r : WorldModelResponse) (hfresh : ∀ p ∈ h, p.1 ≠ d) :
    setHistory h d r = h ++ [(d, r)] := by
  rw [setHistory, if_neg]
  simp only [List.any_eq_true, decide_eq_true_eq, not_exists, not_and]
  intro p hp
  exact hfresh p hp

lemma stepWorld_history (cfg : SimConfig) (su : World → WorldModelResponse)
    (bs : Behaviors) (w : World)
    (hfresh : ∀ p ∈ w.consequenceHistory, p.1 < w.currentDay) :
    (stepWorld cfg su bs w).consequenceHistory =
      w.consequenceHistory ++
        [(w.currentDay, su (World.updateState cfg w (dayActions cfg bs w.currentDay)))] := by
  simp only [stepWorld, World.updateState, World.previousDay, Nat.add_sub_cancel]
  exact setHistory_append _ _ _ (fun p hp => Nat.ne_of_lt (hfresh p hp))

lemma iterWorld_historyKeys (cfg : SimConfig) (su : World → WorldModelResponse)
    (bs : Behaviors) :
    ∀ (k : Nat) (w : World),
      (∀ p ∈ w.consequenceHistory, p.1 < w.currentDay) →
      (iterWorld cfg su bs k w).consequenceHistory.map Prod.fst =
        w.consequenceHistory.map Prod.fst ++ List.range' w.currentDay k := by
  intro k
  induction k with
  | zero => intro w _; simp [iterWorld]
  | succ n ih =>
    intro w hfresh
    have hfresh2 : ∀ p ∈ (stepWorld cfg su bs w).consequenceHistory,
        p.1 < (stepWorld cfg su bs w).currentDay := by
      rw [stepWorld_history cfg su bs w hfresh, stepWorld_currentDay]
      intro p hp
      rcases List.mem_append.mp hp with hp | hp
      · exact Nat.lt_succ_of_lt (hfresh p hp)
      · simp only [List.mem_singleton] at hp
        subst hp
        simp
    simp only [iterWorld]
    rw [ih (stepWorld cfg su bs w) hfresh2,
      stepWorld_history cfg su bs w hfresh, stepWorld_currentDay]
    simp [List.range'_succ, List.append_assoc]

lemma mem_queryEvents (d : Nat) (behaviors : List AgentBehavior) (mr : Nat)
    (e : Event) (he : e ∈ queryEvents d behaviors mr) :
    ∃ i s, e = Event.queried d i s := by
  simp only [queryEvents, List.mem_map] at he
  obtain ⟨p, _, rfl⟩ := he
  exact ⟨p.1, _, rfl⟩

lemma countP_summarized_turnEvents (cfg : SimConfig) (bs : Behaviors) (dd d : Nat) :
    (turnEventsAt cfg bs dd).countP (fun e => decide (e = Event.summarized d)) =
      if dd = d then 1 else 0 := by
  simp only [turnEventsAt, List.countP_append]
  have h1 : (queryEvents dd (bs dd) cfg.maxRetries).countP
      (fun e => decide (e = Event.summarized d)) = 0 := by
    apply List.countP_eq_zero.mpr
    intro e he
    obtain ⟨i, s, rfl⟩ := mem_queryEvents dd (bs dd) cfg.maxRetries e he
    simp
  have h2 : (turnWarns cfg bs dd).countP
      (fun e => decide (e = Event.summarized d)) = 0 := by
    apply List.countP_eq_zero.mpr
    intro e he
    simp only [turnWarns, List.mem_map] at he
    obtain ⟨kind, _, rfl⟩ := he
    simp
  rw [h1, h2]
  by_cases hd : dd = d
  · subst hd; simp
  · simp [List.countP_cons, hd]

lemma countP_summarized_flat (cfg : SimConfig) (bs : Behaviors) :
    ∀ (k d0 d : Nat),
      ((List.range' d0 k).flatMap (turnEventsAt cfg bs)).countP
        (fun e => decide (e = Event.summarized d)) =
        if d0 ≤ d ∧ d < d0 + k then 1 else 0 := by
  intro k
  induction k with
  | zero =>
    intro d0 d
    rw [if_neg (by omega)]
    simp
  | succ n ih =>
    intro d0 d
    rw [List.range'_succ, List.flatMap_cons, List.countP_append,
      countP_summarized_turnEvents, ih (d0 + 1) d]
    split_ifs <;> omega

lemma filter_isDayAdv_turnEvents (cfg : SimConfig) (bs : Behaviors) (dd : Nat) :
    (turnEventsAt cfg bs dd).filter isDayAdv = [Event.dayAdvanced (dd + 1)] := by
  simp only [turnEventsAt, List.filter_append]
  have h1 : (queryEvents dd (bs dd) cfg.maxRetries).filter isDayAdv = [] := by
    apply List.filter_eq_nil_iff.mpr
    intro e he
    obtain ⟨i, s, rfl⟩ := mem_queryEvents dd (bs dd) cfg.maxRetries e he
    simp [isDayAdv]
  have h2 : (turnWarns cfg bs dd).filter isDayAdv = [] := by
    apply List.filter_eq_nil_iff.mpr
    intro e he
    simp only [turnWarns, List.mem_map] at he
    obtain ⟨kind, _, rfl⟩ := he
    simp [isDayAdv]
  rw [h1, h2]
  simp [isDayAdv]

lemma filter_isDayAdv_flat (cfg : SimConfig) (bs : Behaviors) :
    ∀ (k d0 : Nat),
      ((List.range' d0 k).flatMap (turnEventsAt cfg bs)).filter isDayAdv =
        (List.range' d0 k).map (fun d => Event.dayAdvanced (d + 1)) := by
  intro k
  induction k with
  | zero => intro d0; simp
  | succ n ih =>
    intro d0
    rw [List.range'_succ, List.flatMap_cons, List.filter_append,
      filter_isDayAdv_turnEvents, ih (d0 + 1)]
    simp

/-- Claim C1: if on a turn every agent exhausts the retry budget, the run
fails with the fatal error before action resolution and before any
consequence summary for that turn — the whole-run trace ends with the
abort event, contains no resolution, day-increment, summary or history
event, and no further turn produces logs. -/
theorem claim1_blackout_aborts (cfg : SimConfig) (su : World → WorldModelResponse)
    (bs : Behaviors) (w : World)
    (hd : w.currentDay ≤ w.maxDays)
    (hb : (dayCollect cfg bs w.currentDay).numFailed = (bs w.currentDay).length) :
    (runSim cfg su bs w).final =
      Except.error "All nations exceeded max retries, ending simulation" ∧
    (runSim cfg su bs w).events =
      queryEvents w.currentDay (bs w.currentDay) cfg.maxRetries ++
        [Event.aborted w.currentDay] ∧
    (∀ e ∈ (runSim cfg su bs w).events, ∀ d : Nat,
      e ≠ Event.resolved d ∧ e ≠ Event.summarized d ∧ e ≠ Event.recorded d ∧
      e ≠ Event.dayAdvanced d) ∧
    (runSim cfg su bs w).logs = [] := by
  obtain ⟨k, hk⟩ : ∃ k, w.maxDays + 1 - w.currentDay = k + 1 :=
    ⟨w.maxDays - w.currentDay, by omega⟩
  have hrt := runTurn_blackout cfg su (bs w.currentDay) w
    (cfg.trackedTags.map (fun _ => [])) hb
  have hmain : runSim cfg su bs w =
      { events := queryEvents w.currentDay (bs w.currentDay) cfg.maxRetries ++
          [Event.aborted w.currentDay],
        final := Except.error "All nations exceeded max retries, ending simulation",
        metrics := cfg.trackedTags.map (fun _ => []),
        logs := [] } := by
    rw [runSim, hk]
    simp only [runSimAux, if_pos hd, hrt]
  refine ⟨by rw [hmain], by rw [hmain], ?_, by rw [hmain]⟩
  intro e he d
  rw [hmain] at he
  simp only at he
  rcases List.mem_append.mp he with he | he
  · obtain ⟨i, s, rfl⟩ := mem_queryEvents _ _ _ _ he
    exact ⟨by simp, by simp, by simp, by simp⟩
  · simp only [List.mem_singleton] at he
    subst he
    exact ⟨by simp, by simp, by simp, by simp⟩

/-- Witness for claim C1: a single always-failing agent on day 0. -/
theorem claim1_blackout_aborts_witness :
    (sampleWorld.currentDay ≤ sampleWorld.maxDays ∧
      (dayCollect sampleCfg (fun _ => [failB]) sampleWorld.currentDay).numFailed =
        ((fun _ => [failB]) sampleWorld.currentDay).length) ∧
    ((runSim sampleCfg sampleSu (fun _ => [failB]) sampleWorld).final =
      Except.error "All nations exceeded max retries, ending simulation" ∧
    (runSim sampleCfg sampleSu (fun _ => [failB]) sampleWorld).events =
      queryEvents sampleWorld.currentDay [failB] sampleCfg.maxRetries ++
        [Event.aborted sampleWorld.currentDay] ∧
    (∀ e ∈ (runSim sampleCfg sampleSu (fun _ => [failB]) sampleWorld).events,
      ∀ d : Nat,
      e ≠ Event.resolved d ∧ e ≠ Event.summarized d ∧ e ≠ Event.recorded d ∧
      e ≠ Event.dayAdvanced d) ∧
    (runSim sampleCfg sampleSu (fun _ => [failB]) sampleWorld).logs = []) :=
  ⟨⟨by decide, by decide⟩,
    claim1_blackout_aborts sampleCfg sampleSu (fun _ => [failB]) sampleWorld
      (by decide) (by decide)⟩

/-- Claim C5: on a run with no blackout, the consequence summarizer is
invoked exactly once per completed turn (exactly one summary event per
day), strictly after that turn's resolution and day increment (the trace
factors through the block `resolved d, dayAdvanced (d+1), summarized d,
recorded d`), the record is stored under the pre-increment day (the final
history keys are exactly the completed days in order, so nothing is lost
or overwritten), and each turn appends its entry to the history without
touching earlier entries. -/
theorem claim5_consequence_history (cfg : SimConfig)
    (su : World → WorldModelResponse) (bs : Behaviors) (w : World)
    (hle : w.currentDay ≤ w.maxDays + 1)
    (hh : w.consequenceHistory = [])
    (hb : ∀ d, w.currentDay ≤ d → d ≤ w.maxDays →
      (dayCollect cfg bs d).numFailed ≠ (bs d).length) :
    (∃ w2, (runSim cfg su bs w).final = Except.ok w2 ∧
      w2.consequenceHistory.map Prod.fst =
        List.range' w.currentDay (w.maxDays + 1 - w.currentDay)) ∧
    (∀ d, w.currentDay ≤ d → d ≤ w.maxDays →
      (runSim cfg su bs w).events.countP
        (fun e => decide (e = Event.summarized d)) = 1 ∧
      ∃ pre post, (runSim cfg su bs w).events =
        pre ++ Event.resolved d :: Event.dayAdvanced (d + 1) ::
          Event.summarized d :: Event.recorded d :: post) ∧
    (∀ v : World, (∀ p ∈ v.consequenceHistory, p.1 < v.currentDay) →
      (stepWorld cfg su bs v).consequenceHistory =
        v.consequenceHistory ++
          [(v.currentDay, su (World.updateState cfg v (dayActions cfg bs v.currentDay)))]) := by
  have hk : w.currentDay + (w.maxDays + 1 - w.currentDay) = w.maxDays + 1 := by omega
  have hclosed := runSimAux_closed cfg su bs (w.maxDays + 1 - w.currentDay) w
    (cfg.trackedTags.map (fun _ => [])) hk hb
  have hrs : runSim cfg su bs w = runSimAux cfg su bs (w.maxDays + 1 - w.currentDay) w
      (cfg.trackedTags.map (fun _ => [])) := rfl
  refine ⟨?_, ?_, fun v hv => stepWorld_history cfg su bs v hv⟩
  · refine ⟨iterWorld cfg su bs (w.maxDays + 1 - w.currentDay) w, ?_, ?_⟩
    · rw [hrs, hclosed]
    · have := iterWorld_historyKeys cfg su bs (w.maxDays + 1 - w.currentDay) w
        (by rw [hh]; intro p hp; cases hp)
      rw [hh] at this
      simpa using this
  · intro d hd1 hd2
    constructor
    · rw [hrs, hclosed]
      simp only
      rw [countP_summarized_flat cfg bs (w.maxDays + 1 - w.currentDay) w.currentDay d]
      rw [if_pos (by omega)]
    · rw [hrs, hclosed]
      simp only
      have hsplit : List.range' w.currentDay (w.maxDays + 1 - w.currentDay) =
          List.range' w.currentDay (d - w.currentDay) ++
            d :: List.range' (d + 1) (w.maxDays - d) := by
        have h1 : List.range' w.currentDay (d - w.currentDay) ++
            List.range' (w.currentDay + 1 * (d - w.currentDay)) (w.maxDays + 1 - d) =
            List.range' w.currentDay ((w.maxDays + 1 - d) + (d - w.currentDay)) :=
          List.range'_append w.currentDay (d - w.currentDay) (w.maxDays + 1 - d) 1
        rw [show w.currentDay + 1 * (d - w.currentDay) = d by omega,
          show (w.maxDays + 1 - d) = (w.maxDays - d) + 1 by omega,
          List.range'_succ] at h1
        rw [show w.maxDays + 1 - w.currentDay =
          ((w.maxDays - d) + 1) + (d - w.currentDay) by omega]
        exact h1.symm
      rw [hsplit, List.flatMap_append, List.flatMap_cons]
      refine ⟨(List.range' w.currentDay (d - w.currentDay)).flatMap (turnEventsAt cfg bs) ++
        (queryEvents d (bs d) cfg.maxRetries ++ turnWarns cfg bs d),
        (List.range' (d + 1) (w.maxDays - d)).flatMap (turnEventsAt cfg bs), ?_⟩
      simp [turnEventsAt, List.append_assoc]

/-- Witness for claim C5: a two-day run with one always-answering agent. -/
theorem claim5_consequence_history_witness :
    (sampleWorld.currentDay ≤ sampleWorld.maxDays + 1 ∧
      sampleWorld.consequenceHistory = [] ∧
      (∀ d, sampleWorld.currentDay ≤ d → d ≤ sampleWorld.maxDays →
        (dayCollect sampleCfg (fun _ => [okB]) d).numFailed ≠
          ((fun _ => [okB]) d).length)) ∧
    ((∃ w2, (runSim sampleCfg sampleSu (fun _ => [okB]) sampleWorld).final =
        Except.ok w2 ∧
      w2.consequenceHistory.map Prod.fst =
        List.range' sampleWorld.currentDay
          (sampleWorld.maxDays + 1 - sampleWorld.currentDay)) ∧
    (∀ d, sampleWorld.currentDay ≤ d → d ≤ sampleWorld.maxDays →
      (runSim sampleCfg sampleSu (fun _ => [okB]) sampleWorld).events.countP
        (fun e => decide (e = Event.summarized d)) = 1 ∧
      ∃ pre post, (runSim sampleCfg sampleSu (fun _ => [okB]) sampleWorld).events =
        pre ++ Event.resolved d :: Event.dayAdvanced (d + 1) ::
          Event.summarized d :: Event.recorded d :: post) ∧
    (∀ v : World, (∀ p ∈ v.consequenceHistory, p.1 < v.currentDay) →
      (stepWorld sampleCfg sampleSu (fun _ => [okB]) v).consequenceHistory =
        v.consequenceHistory ++
          [(v.currentDay, sampleSu (World.updateState sampleCfg v
            (dayActions sampleCfg (fun _ => [okB]) v.currentDay)))])) :=
  ⟨⟨by decide, by decide,
      fun d h1 h2 => by
        have hd0 : d = 0 := by
          have : sampleWorld.currentDay = 0 := rfl
          have : sampleWorld.maxDays = 0 := rfl
          omega
        subst hd0
        decide⟩,
    claim5_consequence_history sampleCfg sampleSu (fun _ => [okB]) sampleWorld
      (by decide) (by decide)
      (fun d h1 h2 => by
        have hd0 : d = 0 := by
          have e1 : sampleWorld.currentDay = 0 := rfl
          have e2 : sampleWorld.maxDays = 0 := rfl
          omega
        subst hd0
        decide)⟩

/-- Claim C6: on a run with no blackout the day counter starts at the
configured initial value, the increments recorded in the trace are
exactly one per turn and strictly increasing (`dayAdvanced (d+1)` for
each completed day `d` in order), and the loop terminates normally with
the counter exactly one past the configured maximum. -/
theorem claim6_day_counter (cfg : SimConfig) (su : World → WorldModelResponse)
    (bs : Behaviors) (w : World)
    (hle : w.currentDay ≤ w.maxDays + 1)
    (hb : ∀ d, w.currentDay ≤ d → d ≤ w.maxDays →
      (dayCollect cfg bs d).numFailed ≠ (bs d).length) :
    ∃ w2, (runSim cfg su bs w).final = Except.ok w2 ∧
      w2.currentDay = w.maxDays + 1 ∧
      w2.maxDays = w.maxDays ∧
      (runSim cfg su bs w).events.filter isDayAdv =
        (List.range' w.currentDay (w.maxDays + 1 - w.currentDay)).map
          (fun d => Event.dayAdvanced (d + 1)) ∧
      ((runSim cfg su bs w).events.filter isDayAdv).length =
        w.maxDays + 1 - w.currentDay := by
  have hk : w.currentDay + (w.maxDays + 1 - w.currentDay) = w.maxDays + 1 := by omega
  have hclosed := runSimAux_closed cfg su bs (w.maxDays + 1 - w.currentDay) w
    (cfg.trackedTags.map (fun _ => [])) hk hb
  have hrs : runSim cfg su bs w = runSimAux cfg su bs (w.maxDays + 1 - w.currentDay) w
      (cfg.trackedTags.map (fun _ => [])) := rfl
  refine ⟨iterWorld cfg su bs (w.maxDays + 1 - w.currentDay) w, ?_, ?_, ?_, ?_, ?_⟩
  · rw [hrs, hclosed]
  · rw [iterWorld_currentDay]; omega
  · rw [iterWorld_maxDays]
  · rw [hrs, hclosed]
    simp only
    exact filter_isDayAdv_flat cfg bs (w.maxDays + 1 - w.currentDay) w.currentDay
  · rw [hrs, hclosed]
    simp only
    rw [filter_isDayAdv_flat cfg bs (w.maxDays + 1 - w.currentDay) w.currentDay]
    simp

/-- Witness for claim C6 at the one-day sample run. -/
theorem claim6_day_counter_witness :
    (sampleWorld.currentDay ≤ sampleWorld.maxDays + 1 ∧
      (∀ d, sampleWorld.currentDay ≤ d → d ≤ sampleWorld.maxDays →
        (dayCollect sampleCfg (fun _ => [okB]) d).numFailed ≠
          ((fun _ => [okB]) d).length)) ∧
    (∃ w2, (runSim sampleCfg sampleSu (fun _ => [okB]) sampleWorld).final =
        Except.ok w2 ∧
      w2.currentDay = sampleWorld.maxDays + 1 ∧
      w2.maxDays = sampleWorld.maxDays ∧
      (runSim sampleCfg sampleSu (fun _ => [okB]) sampleWorld).events.filter isDayAdv =
        (List.range' sampleWorld.currentDay
          (sampleWorld.maxDays + 1 - sampleWorld.currentDay)).map
          (fun d => Event.dayAdvanced (d + 1)) ∧
      ((runSim sampleCfg sampleSu (fun _ => [okB]) sampleWorld).events.filter
          isDayAdv).length =
        sampleWorld.maxDays + 1 - sampleWorld.currentDay) :=
  ⟨⟨by decide,
      fun d h1 h2 => by
        have hd0 : d = 0 := by
          have e1 : sampleWorld.currentDay = 0 := rfl
          have e2 : sampleWorld.maxDays = 0 := rfl
          omega
        subst hd0
        decide⟩,
    claim6_day_counter sampleCfg sampleSu (fun _ => [okB]) sampleWorld
      (by decide)
      (fun d h1 h2 => by
        have hd0 : d = 0 := by
          have e1 : sampleWorld.currentDay = 0 := rfl
          have e2 : sampleWorld.maxDays = 0 := rfl
          omega
        subst hd0
        decide)⟩

/-! ### Facts about the metrics aggregator (claim C8) -/

lemma logsClosed_length (cfg : SimConfig) (bs : Behaviors) :
    ∀ (k d : Nat) (m : List (List Nat)), (logsClosed cfg bs d k m).length = k := by
  intro k
  induction k with
  | zero => intro d m; rfl
  | succ n ih =>
    intro d m
    simp only [logsClosed, List.length_cons, ih]

lemma logsClosed_getElem (cfg : SimConfig) (bs : Behaviors) :
    ∀ (k d : Nat) (m : List (List Nat)) (t : Nat), t < k →
      (logsClosed cfg bs d k m)[t]? =
        some (logAt cfg bs (d + t) (metricsClosed cfg bs d t m)) := by
  intro k
  induction k with
  | zero => intro d m t ht; omega
  | succ n ih =>
    intro d m t ht
    match t with
    | 0 =>
      simp only [logsClosed, List.getElem?_cons_zero, Nat.add_zero]
      rfl
    | t + 1 =>
      simp only [logsClosed, List.getElem?_cons_succ]
      rw [ih (d + 1) (appendCounts m (turnDaily cfg bs d)) t (by omega)]
      rw [show d + 1 + t = d + (t + 1) by omega]
      rfl

lemma metricsClosed_tags (cfg : SimConfig) (bs : Behaviors) :
    ∀ (k d : Nat) (g : String → List Nat),
      metricsClosed cfg bs d k (cfg.trackedTags.map g) =
        cfg.trackedTags.map (fun tg => g tg ++
          (List.range' d k).map (fun dd =>
            countTag cfg.table tg (dayActions cfg bs dd))) := by
  intro k
  induction k with
  | zero => intro d g; simp [metricsClosed]
  | succ n ih =>
    intro d g
    simp only [metricsClosed]
    have happ : appendCounts (cfg.trackedTags.map g) (turnDaily cfg bs d) =
        cfg.trackedTags.map (fun tg =>
          g tg ++ [countTag cfg.table tg (dayActions cfg bs d)]) := by
      simp only [appendCounts, turnDaily, List.zipWith_map, List.zipWith_same]
    rw [happ, ih (d + 1)]
    refine congrArg (fun f => List.map f cfg.trackedTags) (funext (fun tg => ?_))
    rw [List.range'_succ]
    simp [List.append_assoc]

lemma logAt_closed (cfg : SimConfig) (bs : Behaviors) (d t : Nat) :
    logAt cfg bs (d + t) (metricsClosed cfg bs d t (cfg.trackedTags.map (fun _ => []))) =
      { day := d + t,
        dailyCounts := cfg.trackedTags.map (fun tg =>
          countTag cfg.table tg (dayActions cfg bs (d + t))),
        sumCounts := cfg.trackedTags.map (fun tg =>
          ((List.range' d (t + 1)).map (fun dd =>
            countTag cfg.table tg (dayActions cfg bs dd))).sum),
        maxCounts := cfg.trackedTags.map (fun tg =>
          ((List.range' d (t + 1)).map (fun dd =>
            countTag cfg.table tg (dayActions cfg bs dd))).foldl max 0) } := by
  have hm := metricsClosed_tags cfg bs t d (fun _ => ([] : List Nat))
  have hnew : appendCounts
      (metricsClosed cfg bs d t (cfg.trackedTags.map (fun _ => [])))
      (turnDaily cfg bs (d + t)) =
      cfg.trackedTags.map (fun tg => (List.range' d (t + 1)).map (fun dd =>
        countTag cfg.table tg (dayActions cfg bs dd))) := by
    rw [hm]
    simp only [appendCounts, turnDaily, List.zipWith_map, List.zipWith_same]
    refine congrArg (fun f => List.map f cfg.trackedTags) (funext (fun tg => ?_))
    rw [List.range'_concat]
    simp
  simp only [logAt, hnew, List.map_map]
  rfl

lemma le_foldl_max_init : ∀ (l : List Nat) (a : Nat), a ≤ l.foldl max a := by
  intro l
  induction l with
  | nil => intro a; exact le_refl a
  | cons y t ih =>
    intro a
    exact le_trans (le_max_left a y) (ih (max a y))

lemma le_foldl_max : ∀ (l : List Nat) (a : Nat), ∀ x ∈ l, x ≤ l.foldl max a := by
  intro l
  induction l with
  | nil => intro a x hx; cases hx
  | cons y t ih =>
    intro a x hx
    rcases List.mem_cons.mp hx with rfl | hx
    · exact le_trans (le_max_right a x) (le_foldl_max_init t (max a x))
    · exact ih (max a y) x hx

/-- Claim C8: per-turn metric logs report, for every tracked
classification tag, the count of that tag over the actions queued that
turn, the cumulative value as the sum of all per-turn counts so far and
the maximum as the fold of `max` over those counts (an upper bound of
every per-turn count so far); and the metric accumulator never
influences the run: the event trace and the final world are the same for
any two initial accumulators. -/
theorem claim8_metrics (cfg : SimConfig) (su : World → WorldModelResponse)
    (bs : Behaviors) (w : World)
    (hle : w.currentDay ≤ w.maxDays + 1)
    (hb : ∀ d, w.currentDay ≤ d → d ≤ w.maxDays →
      (dayCollect cfg bs d).numFailed ≠ (bs d).length) :
    (runSim cfg su bs w).logs.length = w.maxDays + 1 - w.currentDay ∧
    (∀ t, t < w.maxDays + 1 - w.currentDay →
      (runSim cfg su bs w).logs[t]? = some
        { day := w.currentDay + t,
          dailyCounts := cfg.trackedTags.map (fun tg =>
            countTag cfg.table tg (dayActions cfg bs (w.currentDay + t))),
          sumCounts := cfg.trackedTags.map (fun tg =>
            ((List.range' w.currentDay (t + 1)).map (fun dd =>
              countTag cfg.table tg (dayActions cfg bs dd))).sum),
          maxCounts := cfg.trackedTags.map (fun tg =>
            ((List.range' w.currentDay (t + 1)).map (fun dd =>
              countTag cfg.table tg (dayActions cfg bs dd))).foldl max 0) }) ∧
    (∀ (l : List Nat), ∀ x ∈ l, x ≤ l.foldl max 0) ∧
    (∀ (k : Nat) (m₁ m₂ : List (List Nat)),
      (runSimAux cfg su bs k w m₁).events = (runSimAux cfg su bs k w m₂).events ∧
      (runSimAux cfg su bs k w m₁).final = (runSimAux cfg su bs k w m₂).final) := by
  have hk : w.currentDay + (w.maxDays + 1 - w.currentDay) = w.maxDays + 1 := by omega
  have hclosed := runSimAux_closed cfg su bs (w.maxDays + 1 - w.currentDay) w
    (cfg.trackedTags.map (fun _ => [])) hk hb
  have hrs : runSim cfg su bs w = runSimAux cfg su bs (w.maxDays + 1 - w.currentDay) w
      (cfg.trackedTags.map (fun _ => [])) := rfl
  refine ⟨?_, ?_, fun l x hx => le_foldl_max l 0 x hx,
    fun k m₁ m₂ => runSimAux_metrics_indep cfg su bs k w m₁ m₂⟩
  · rw [hrs, hclosed]
    simp only
    exact logsClosed_length cfg bs (w.maxDays + 1 - w.currentDay) w.currentDay _
  · intro t ht
    rw [hrs, hclosed]
    simp only
    rw [logsClosed_getElem cfg bs (w.maxDays + 1 - w.currentDay) w.currentDay _ t ht]
    rw [logAt_closed cfg bs w.currentDay t]

/-- Witness for claim C8 at the one-day sample run. -/
theorem claim8_metrics_witness :
    (sampleWorld.currentDay ≤ sampleWorld.maxDays + 1 ∧
      (∀ d, sampleWorld.currentDay ≤ d → d ≤ sampleWorld.maxDays →
        (dayCollect sampleCfg (fun _ => [okB]) d).numFailed ≠
          ((fun _ => [okB]) d).length)) ∧
    ((runSim sampleCfg sampleSu (fun _ => [okB]) sampleWorld).logs.length =
      sampleWorld.maxDays + 1 - sampleWorld.currentDay ∧
    (∀ t, t < sampleWorld.maxDays + 1 - sampleWorld.currentDay →
      (runSim sampleCfg sampleSu (fun _ => [okB]) sampleWorld).logs[t]? = some
        { day := sampleWorld.currentDay + t,
          dailyCounts := sampleCfg.trackedTags.map (fun tg =>
            countTag sampleCfg.table tg
              (dayActions sampleCfg (fun _ => [okB]) (sampleWorld.currentDay + t))),
          sumCounts := sampleCfg.trackedTags.map (fun tg =>
            ((List.range' sampleWorld.currentDay (t + 1)).map (fun dd =>
              countTag sampleCfg.table tg
                (dayActions sampleCfg (fun _ => [okB]) dd))).sum),
          maxCounts := sampleCfg.trackedTags.map (fun tg =>
            ((List.range' sampleWorld.currentDay (t + 1)).map (fun dd =>
              countTag sampleCfg.table tg
                (dayActions sampleCfg (fun _ => [okB]) dd))).foldl max 0) }) ∧
    (∀ (l : List Nat), ∀ x ∈ l, x ≤ l.foldl max 0) ∧
    (∀ (k : Nat) (m₁ m₂ : List (List Nat)),
      (runSimAux sampleCfg sampleSu (fun _ => [okB]) k sampleWorld m₁).events =
        (runSimAux sampleCfg sampleSu (fun _ => [okB]) k sampleWorld m₂).events ∧
      (runSimAux sampleCfg sampleSu (fun _ => [okB]) k sampleWorld m₁).final =
        (runSimAux sampleCfg sampleSu (fun _ => [okB]) k sampleWorld m₂).final)) :=
  ⟨⟨by decide,
      fun d h1 h2 => by
        have hd0 : d = 0 := by
          have e1 : sampleWorld.currentDay = 0 := rfl
          have e2 : sampleWorld.maxDays = 0 := rfl
          omega
        subst hd0
        decide⟩,
    claim8_metrics sampleCfg sampleSu (fun _ => [okB]) sampleWorld
      (by decide)
      (fun d h1 h2 => by
        have hd0 : d = 0 := by
          have e1 : sampleWorld.currentDay = 0 := rfl
          have e2 : sampleWorld.maxDays = 0 := rfl
          omega
        subst hd0
        decide)⟩

end MilSim
